import Mathlib

/-!
# purp: a hop-forwarding load generator

A shallow embedding of `main.go`.  Go strings are Lean strings, Go `int`
is `Int`, and everything the handler does to the outside world (writing
the response, printing, logging, drawing a random number, calling the next
host, sleeping) is recorded as an `Event` in the order the statements run.
What the outside world answers (the random draw, the reply of the next host,
the clock) is a parameter of the handler.
-/

namespace Purp

/-! ## Library functions the program calls -/

/-- The two errors of `strconv`. -/
inductive NumError where
  | ErrSyntax
  | ErrRange
  deriving DecidableEq

def maxUint64 : Nat := 18446744073709551615

/-- Cutoff of `strconv.ParseUint` in base 10: the smallest number whose
tenfold exceeds `maxUint64`. -/
def uintCutoff : Nat := maxUint64 / 10 + 1

/-- The byte loop of `strconv.ParseUint(s, 10, 64)` with accumulator `n`.
For each byte in turn the library runs, in this order: a byte that is not a
digit returns `(0, ErrSyntax)`; then `if n >= cutoff` returns
`(maxVal, ErrRange)`; then `n *= 10`, and `n1 := n + d` with
`if n1 < n || n1 > maxVal` returns `(maxVal, ErrRange)`.  Both returns on
overflow leave the loop at once, so the bytes after an overflowing digit are
never looked at.  On unbounded naturals the wrap-around test `n1 < n` is part
of `maxUint64 < n * 10 + d`. -/
def parseUintLoop : List Char → Nat → Nat × Option NumError
  | [], n => (n, none)
  | c :: cs, n =>
    if 48 ≤ c.toNat ∧ c.toNat ≤ 57 then
      if uintCutoff ≤ n then (maxUint64, some .ErrRange)
      else if maxUint64 < n * 10 + (c.toNat - 48) then (maxUint64, some .ErrRange)
      else parseUintLoop cs (n * 10 + (c.toNat - 48))
    else (0, some .ErrSyntax)

/-- The function `strconv.ParseUint(s, 10, 64)`. -/
def ParseUint (s : List Char) : Nat × Option NumError :=
  if s = [] then (0, some .ErrSyntax) else parseUintLoop s 0

/-- The function `strconv.ParseInt(s, 10, 0)` on a 64-bit platform: the empty
text is a syntax error; an optional sign is taken off and `ParseUint` reads the
rest; its syntax error is passed on with the value 0, and its range error, or
a value beyond `2 ^ 63`, gives the nearest `int64` with a range error. -/
def ParseInt (s : List Char) : Int × Option NumError :=
  match s with
  | [] => (0, some .ErrSyntax)
  | c :: cs =>
    let neg := c = '-'
    let rest := if c = '+' ∨ c = '-' then cs else c :: cs
    match ParseUint rest with
    | (_, some .ErrSyntax) => (0, some .ErrSyntax)
    | (un, _) =>
      if ¬ neg ∧ 2 ^ 63 ≤ un then (2 ^ 63 - 1, some .ErrRange)
      else if neg ∧ 2 ^ 63 < un then (-(2 ^ 63), some .ErrRange)
      else (if neg then -(un : Int) else (un : Int), none)

/-- The function `strconv.Atoi`: `ParseInt(s, 10, 0)` converted to `int`
(its fast path for short inputs computes the same result). -/
def Atoi (s : String) : Int × Option NumError := ParseInt s.toList

/-- Digits of `n` in base 10, most significant first, put in front of `acc`;
`fuel` bounds the number of digits. -/
def fmtNatCore : Nat → Nat → List Char → List Char
  | 0, _, acc => acc
  | fuel + 1, n, acc =>
    if n / 10 = 0 then Char.ofNat (48 + n % 10) :: acc
    else fmtNatCore fuel (n / 10) (Char.ofNat (48 + n % 10) :: acc)

/-- The verb `%d` of `fmt` on a Go `int`: decimal digits, with a leading
minus sign for a negative number. -/
def fmtInt (i : Int) : String :=
  if i < 0 then String.mk ('-' :: fmtNatCore (i.natAbs + 1) i.natAbs [])
  else String.mk (fmtNatCore (i.natAbs + 1) i.natAbs [])

/-- The types `url.Values` and `http.Header`, as an ordered list of
key and value pairs. -/
abbrev Values := List (String × String)

/-- The first value stored under `key`, or the empty string. -/
def Values.Get (v : Values) (key : String) : String :=
  match v.find? (fun kv => kv.1 == key) with
  | some kv => kv.2
  | none => ""

/-- Append one more value under `key`. -/
def Values.Add (v : Values) (key value : String) : Values := v ++ [(key, value)]

/-- Go `len` of a string: its length in bytes. -/
def len (s : String) : Nat := s.utf8ByteSize

/-- The method `Intn` of a random generator whose next raw draw is `draw`:
a number in `[0, n)`; it panics (here `none`) when `n` is not positive.  Every
number below `n` is `draw % n` for some `draw`, so all answers of the
generator are covered. -/
def Intn (draw : Nat) (n : Nat) : Option Nat :=
  if n = 0 then none else some (draw % n)

/-- Two's complement wrap-around of a 64-bit signed integer, as in the
product `time.Millisecond * time.Duration(workLoad)`. -/
def wrap64 (x : Int) : Int := (x + 2 ^ 63) % 2 ^ 64 - 2 ^ 63

/-! ## Data model -/

/-- The inbound request: the parsed query of its URL, its header, and the
values stored in its context (most recent first). -/
structure Request where
  query : Values
  header : Values
  ctx : List (String × String)
  deriving DecidableEq

/-- The method `context.Value` for a string value: the most recently stored
value under `key`, if any. -/
def Request.Value (req : Request) (key : String) : Option String :=
  match req.ctx.find? (fun kv => kv.1 == key) with
  | some kv => some kv.2
  | none => none

/-- The call `req.WithContext(context.WithValue(req.Context(), key, value))`. -/
def Request.WithValue (req : Request) (key value : String) : Request :=
  { req with ctx := (key, value) :: req.ctx }

/-- A request made by `httpClient.Get(url)`: the client builds it from the
URL alone, so it has the method GET, that URL and an empty header. -/
structure Outbound where
  url : String
  header : Values
  deriving DecidableEq

/-- The call `http.NewRequest("GET", url, nil)` made by `httpClient.Get(url)`. -/
def newGet (url : String) : Outbound := { url := url, header := [] }

/-- What the next host answers to `httpClient.Get` followed by
`ioutil.ReadAll`: an error of either call, no answer at all (the client has
no timeout), or the body read. -/
inductive GetResult where
  | getError
  | readError
  | noReply
  | ok (body : String)
  deriving DecidableEq

/-- One effect of a handler on the outside world. -/
inductive Event where
  | write (body : String)
  | printf (line : String)
  | logf (line : String)
  | intn (n : Nat)
  | get (r : Outbound)
  | sleep (ns : Int)
  deriving DecidableEq

/-- How a handler call ends: it returns, it panics, or it never ends. -/
inductive Status where
  | returned
  | panicked
  | diverged
  deriving DecidableEq

/-- The events of one handler call, in order, and how the call ended. -/
structure Outcome where
  events : List Event
  status : Status
  deriving DecidableEq

/-- The response body: everything passed to `w.Write`, in order. -/
def Outcome.body (o : Outcome) : String :=
  o.events.foldl (fun acc e => match e with | .write b => acc ++ b | _ => acc) ""

abbrev HandlerFunc := Request → Outcome

abbrev Wrapper := HandlerFunc → HandlerFunc

abbrev ArgumentList := List String

/-- The method `ArgumentList.Set`: the new list and the returned error
(`none` is Go `nil`). -/
def ArgumentList.Set (l : ArgumentList) (value : String) : ArgumentList × Option String :=
  (l ++ [value], none)

/-- Initial value of the global `hosts`. -/
def hosts : ArgumentList := ["localhost:8080", "localhost:8080"]

/-- The process configuration read by `handleIt`: the globals `hosts` and
`workLoad` after flag parsing. -/
structure Config where
  hosts : ArgumentList
  workLoad : Int
  deriving DecidableEq

/-! ## The hop engine -/

/-- Lines 53-58 of `handleIt`: the chosen host, with the events of the
choice; `none` is a run-time panic (`Intn` of 0, or an index out of range). -/
def selectHost (hosts : ArgumentList) (draw : Nat) : Option (String × List Event) :=
  if hosts.length = 1 then
    match hosts[0]? with
    | some host => some (host, [])
    | none => none
  else
    match Intn draw hosts.length with
    | none => none
    | some i =>
      match hosts[i]? with
      | some host => some (host, [.intn hosts.length])
      | none => none

def rejection : String := "Hops setting too high, supporting a max of 1000."

/-- The text `fmt.Sprintf("http://%s?hops=%d", host, hops)`. -/
def hopURL (host : String) (hops : Int) : String :=
  "http://" ++ host ++ "?hops=" ++ fmtInt hops

/-- The text printed before the request is made. -/
def hopLine (host : String) (hops : Int) : String :=
  "Making request to " ++ host ++ ", remaining hops after this request: " ++ fmtInt hops ++ "\n"

/-- The handler `handleIt`, for the configuration `cfg`, the next raw draw
`draw` of `seededRand` and the answer `client` of the network to a GET. -/
def handleIt (cfg : Config) (draw : Nat) (client : String → GetResult) : HandlerFunc :=
  fun req =>
    let hops := (Atoi (req.query.Get "hops")).1
    if hops > 1000 then
      ⟨[.write rejection], .returned⟩
    else if hops > 0 then
      match selectHost cfg.hosts draw with
      | none => ⟨[.intn cfg.hosts.length], .panicked⟩
      | some (host, drawn) =>
        let hops := hops - 1
        let sent := drawn ++ [.printf (hopLine host hops), .get (newGet (hopURL host hops))]
        match client (hopURL host hops) with
        | .getError => ⟨sent, .panicked⟩
        | .readError => ⟨sent, .panicked⟩
        | .noReply => ⟨sent, .diverged⟩
        | .ok reply =>
          ⟨sent ++ (if cfg.workLoad > 0 then [.sleep (wrap64 (1000000 * cfg.workLoad))] else [])
              ++ [.write reply],
            .returned⟩
    else
      ⟨[.write "Done"], .returned⟩


/-! ## Request identity -/

def letterBytes : List Char :=
  "abcdefghijklmnopqrstuvwxyzABCDEFGHIJKLMNOPQRSTUVWXYZ".toList

def letterIdxBits : Nat := 6

def letterIdxMask : Nat := 1 <<< letterIdxBits - 1

def letterIdxMax : Nat := 63 / letterIdxBits

/-- The loop of `randStringBytesMaskSrc`.  The random source is the stream
`src` (its `k`-th call of `Int63` returns `src k % 2 ^ 63`) and `next` counts
the calls made so far.  One unit of `fuel` pays for one turn of the loop;
`none` means the loop was still running when the fuel ran out. -/
def randLoop (src : Nat → Nat) :
    Nat → Int → Nat → Nat → Nat → List Char → Option (List Char)
  | 0, i, _, _, _, b => if 0 ≤ i then none else some b
  | fuel + 1, i, cache, remain, next, b =>
    if 0 ≤ i then
      let cache1 := if remain = 0 then src next % 2 ^ 63 else cache
      let remain1 := if remain = 0 then letterIdxMax else remain
      let next1 := if remain = 0 then next + 1 else next
      let idx := cache1 &&& letterIdxMask
      if h : idx < letterBytes.length then
        randLoop src fuel (i - 1) (cache1 >>> letterIdxBits) (remain1 - 1) next1
          (b.set i.toNat (letterBytes.get ⟨idx, h⟩))
      else
        randLoop src fuel i (cache1 >>> letterIdxBits) (remain1 - 1) next1 b
    else some b

/-- The function `randStringBytesMaskSrc(n)` on the random source `src`. -/
def randStringBytesMaskSrc (src : Nat → Nat) (fuel : Nat) (n : Nat) : Option String :=
  (randLoop src fuel ((n : Int) - 1) (src 0 % 2 ^ 63) letterIdxMax 1
    (List.replicate n (Char.ofNat 0))).map String.mk

/-- Lines 140-143 of `addRequestID`: the token taken from the inbound header
`Request-ID`, or a generated one; `none` when the generation never ends. -/
def chooseRID (src : Nat → Nat) (fuel : Nat) (req : Request) : Option String :=
  let rid := req.header.Get "Request-ID"
  if rid = "" ∨ len rid > 8 then randStringBytesMaskSrc src fuel 8 else some rid

/-- Lines 145-146 of `addRequestID`: the request handed on, with the token in
its context and added to its header. -/
def Request.withRID (req : Request) (rid : String) : Request :=
  { req.WithValue "rid" rid with header := req.header.Add "Request-ID" rid }

/-- The wrapper `addRequestID`; `src` is the time-seeded source handed to
`randStringBytesMaskSrc` for this request. -/
def addRequestID (src : Nat → Nat) (fuel : Nat) : Wrapper :=
  fun fn req =>
    match chooseRID src fuel req with
    | none => ⟨[], .diverged⟩
    | some rid => fn (req.withRID rid)

/-! ## Access log -/

/-- The wrapper `requestLogger`; `since` is the text of `time.Since(start)`
read after the wrapped handler has returned. -/
def requestLogger (since : String) : Wrapper :=
  fun fn req =>
    let rid := match req.Value "rid" with
      | some rid => rid
      | none => "none"
    let before := Event.logf ("[" ++ rid ++ "] Before")
    let inner := fn req
    match inner.status with
    | .returned =>
      ⟨before :: inner.events ++ [.logf ("[" ++ rid ++ "] Finished in " ++ since)], .returned⟩
    | st => ⟨before :: inner.events, st⟩

/-! ## Middleware pipeline -/

/-- The function `decorateHandler`: the loop `h = decorate(h)` over `ds`. -/
def decorateHandler {H : Type} (h : H) : List (H → H) → H
  | [] => h
  | decorate :: ds => decorateHandler (decorate h) ds

/-- The handler assembled in `main`. -/
def mainHandler (cfg : Config) (draw : Nat) (client : String → GetResult)
    (since : String) (src : Nat → Nat) (fuel : Nat) : HandlerFunc :=
  decorateHandler (handleIt cfg draw client) [requestLogger since, addRequestID src fuel]

/-- Flag parsing: one call of `Set` on the global `hosts` for every
`-add-host` value, in order. -/
def parseHosts (values : List String) : ArgumentList :=
  values.foldl (fun l v => (ArgumentList.Set l v).1) hosts

/-! ## A chain of hosts that all run `handleIt` -/

/-- Split at every `sep`, as `strings.Split`. -/
def splitOn (sep : Char) : List Char → List (List Char)
  | [] => [[]]
  | c :: cs =>
    if c = sep then [] :: splitOn sep cs
    else
      match splitOn sep cs with
      | [] => [[c]]
      | w :: ws => (c :: w) :: ws

/-- The raw query of a URL, as `url.Parse` finds it: the fragment that starts
at the first `#` is cut off, and the query is what follows the first `?`. -/
def rawQuery (url : List Char) : List Char :=
  ((url.takeWhile (fun c => c != '#')).dropWhile (fun c => c != '?')).drop 1

/-- Value of a hexadecimal digit, if `c` is one. -/
def hexVal (c : Char) : Option Nat :=
  if 48 ≤ c.toNat ∧ c.toNat ≤ 57 then some (c.toNat - 48)
  else if 97 ≤ c.toNat ∧ c.toNat ≤ 102 then some (c.toNat - 87)
  else if 65 ≤ c.toNat ∧ c.toNat ≤ 70 then some (c.toNat - 55)
  else none

/-- The function `url.QueryUnescape`: `%XY` becomes the byte with that
hexadecimal value (kept here as the character with that code), `+` becomes a
space, and a `%` that is not followed by two hexadecimal digits is an error. -/
def unescape : List Char → Option (List Char)
  | [] => some []
  | c :: cs =>
    if c = '%' then
      match cs with
      | a :: b :: rest =>
        match hexVal a, hexVal b, unescape rest with
        | some x, some y, some r => some (Char.ofNat (16 * x + y) :: r)
        | _, _, _ => none
      | _ => none
    else
      match unescape cs with
      | some r => some ((if c = '+' then ' ' else c) :: r)
      | none => none

/-- One `key=value` pair of `url.ParseQuery`: an empty pair, a pair that
holds `;` and a pair with a bad escape are dropped; the key ends at the first
`=`. -/
def parsePair (kv : List Char) : Option (String × String) :=
  if kv = [] ∨ ';' ∈ kv then none
  else
    match unescape (kv.takeWhile (fun c => c != '=')),
        unescape ((kv.dropWhile (fun c => c != '=')).drop 1) with
    | some key, some value => some (String.mk key, String.mk value)
    | _, _ => none

/-- The method `URL.Query`: the pairs `key=value` separated by `&`, in
order; the error of `url.ParseQuery` is dropped and the good pairs are kept. -/
def parseQuery (q : List Char) : Values :=
  (splitOn '&' q).filterMap parsePair

/-- The request a host receives for a plain GET of `url`. -/
def requestOfURL (url : String) : Request :=
  { query := parseQuery (rawQuery url.toList), header := [], ctx := [] }

/-- The requests a handler call sent out, in order. -/
def Outcome.outbound (o : Outcome) : List Outbound :=
  o.events.filterMap fun e =>
    match e with
    | .get r => some r
    | _ => none

/-- The sleeps of a handler call, in order. -/
def Outcome.sleeps (o : Outcome) : List Int :=
  o.events.filterMap fun e =>
    match e with
    | .sleep ns => some ns
    | _ => none

/-- The value `10 * time.Second` in nanoseconds: the `WriteTimeout` that
`main` gives the server.  The write deadline of a connection is set when the
request has been read; a response that the handler produces later than that is
not sent and the connection is closed. -/
def writeTimeout : Nat := 10 * 1000000000

/-- What lies outside the code in a chain of hosts that all run `handleIt`
with the configuration `cfg` (the two wrappers that `main` puts around it
write nothing to the response): the raw random draw of the handler `depth`
hops down the chain, the time in nanoseconds that this handler spends besides
its sleep and its wait for the next host, and `reach`, which tells whether
`httpClient.Get` can parse a URL and finds such a host behind it. -/
structure Network where
  cfg : Config
  draws : Nat → Nat
  delay : Nat → Nat
  reach : String → Bool

/-- What the caller of a host gets back: the result of its GET, all the
forwarding round-trips that happened behind that host while it waited (each
request with its answer, in order), and the time the host took. -/
structure Reply where
  result : GetResult
  trips : List (Outbound × GetResult)
  elapsed : Nat
  deriving DecidableEq

/-- The host `depth` hops down the chain serves `req`, where `next` is what
the network answers to its own GETs.  The round-trips are the GETs this run of
`handleIt` makes, each followed by those behind it.  The time is the delay of
this host, the time of the hosts it waited for, and its sleeps (a sleep of a
negative duration returns at once).  A handler that returns too late for the
write deadline, or that panics, closes the connection without a response,
which the caller sees as a failed GET. -/
def answer (net : Network) (depth : Nat) (next : String → Reply) (req : Request) : Reply :=
  let o := handleIt net.cfg (net.draws depth) (fun url => (next url).result) req
  let elapsed := net.delay depth + (o.outbound.map fun r => (next r.url).elapsed).sum +
    (o.sleeps.map Int.toNat).sum
  { result :=
      match o.status with
      | .returned => if elapsed ≤ writeTimeout then .ok o.body else .getError
      | .panicked => .getError
      | .diverged => .noReply
    trips := o.outbound.flatMap fun r => (r, (next r.url).result) :: (next r.url).trips
    elapsed := elapsed }

/-- The answer of the network to a GET of `url`: when the URL is reached, the
host `depth` hops down the chain serves the request it carries; otherwise the
GET fails.  `fuel` bounds the length of the chain, and a chain that is longer
never answers. -/
def network (net : Network) : Nat → Nat → String → Reply
  | 0, _, _ => ⟨.noReply, [], 0⟩
  | fuel + 1, depth, url =>
    if net.reach url then answer net depth (network net fuel (depth + 1)) (requestOfURL url)
    else ⟨.getError, [], 0⟩

/-- The host `depth` hops down the chain serves `req` on that network. -/
def serveAt (net : Network) (fuel depth : Nat) (req : Request) : Reply :=
  answer net depth (network net fuel (depth + 1)) req

/-- The time of one work-load sleep in nanoseconds. -/
def pause (cfg : Config) : Nat :=
  if cfg.workLoad > 0 then (wrap64 (1000000 * cfg.workLoad)).toNat else 0

/-- The time a host `d` hops down the chain takes for a request with `h`
hops left when all forwards succeed: its own delay and, when it forwards, the
time of the next host and one sleep. -/
def chainTime (delay : Nat → Nat) (pause : Nat) : Nat → Nat → Nat
  | 0, d => delay d
  | h + 1, d => delay d + chainTime delay pause h (d + 1) + pause

/-- The nesting that the specification describes: the first decorator of the
list is the outermost wrapper, `d1 (d2 (... (dn h)))`. -/
def firstOutermost {H : Type} (h : H) : List (H → H) → H
  | [] => h
  | d :: ds => d (firstOutermost h ds)

/-- A decimal integer as the specification reads it: an optional sign
followed by one or more decimal digits. -/
def isDecimalInteger (s : String) : Bool :=
  match s.toList with
  | [] => false
  | c :: cs =>
    let digits := if c = '+' ∨ c = '-' then cs else c :: cs
    digits != [] && digits.all fun d => decide (48 ≤ d.toNat ∧ d.toNat ≤ 57)

/-- The hop count a host parses from a forwarded request. -/
def forwardedHops (r : Outbound) : Int :=
  (Atoi ((requestOfURL r.url).query.Get "hops")).1

/-- The number that a list of decimal digits denotes after the digits already
read have given `m`; used to state what `parseUintLoop` computes. -/
def digitsValue : List Char → Nat → Nat
  | [], m => m
  | c :: cs, m => digitsValue cs (m * 10 + (c.toNat - 48))

/-- The hop counts `k - 1, ..., 1, 0`. -/
def countdown : Nat → List Int
  | 0 => []
  | k + 1 => (k : Int) :: countdown k

/-! ## The hop engine: the three branches -/

theorem handleIt_high (cfg : Config) (draw : Nat) (client : String → GetResult)
    (req : Request) (h : 1000 < (Atoi (req.query.Get "hops")).1) :
    handleIt cfg draw client req = ⟨[.write rejection], .returned⟩ := by
  simp [handleIt, h]

theorem handleIt_low (cfg : Config) (draw : Nat) (client : String → GetResult)
    (req : Request) (h : (Atoi (req.query.Get "hops")).1 ≤ 0) :
    handleIt cfg draw client req = ⟨[.write "Done"], .returned⟩ := by
  have h1 : ¬ (1000 < (Atoi (req.query.Get "hops")).1) := by omega
  have h2 : ¬ (0 < (Atoi (req.query.Get "hops")).1) := by omega
  simp [handleIt, h1, h2]

theorem handleIt_forward (cfg : Config) (draw : Nat) (client : String → GetResult)
    (req : Request) (host : String) (drawn : List Event)
    (h0 : 0 < (Atoi (req.query.Get "hops")).1) (h1 : (Atoi (req.query.Get "hops")).1 ≤ 1000)
    (hs : selectHost cfg.hosts draw = some (host, drawn)) :
    handleIt cfg draw client req =
      match client (hopURL host ((Atoi (req.query.Get "hops")).1 - 1)) with
      | .getError | .readError =>
        ⟨drawn ++ [.printf (hopLine host ((Atoi (req.query.Get "hops")).1 - 1)),
          .get (newGet (hopURL host ((Atoi (req.query.Get "hops")).1 - 1)))], .panicked⟩
      | .noReply =>
        ⟨drawn ++ [.printf (hopLine host ((Atoi (req.query.Get "hops")).1 - 1)),
          .get (newGet (hopURL host ((Atoi (req.query.Get "hops")).1 - 1)))], .diverged⟩
      | .ok reply =>
        ⟨drawn ++ [.printf (hopLine host ((Atoi (req.query.Get "hops")).1 - 1)),
          .get (newGet (hopURL host ((Atoi (req.query.Get "hops")).1 - 1)))] ++
          (if cfg.workLoad > 0 then [.sleep (wrap64 (1000000 * cfg.workLoad))] else []) ++
          [.write reply], .returned⟩ := by
  have h2 : ¬ (1000 < (Atoi (req.query.Get "hops")).1) := by omega
  simp only [handleIt, h2, h0, hs, if_true, if_false, gt_iff_lt]

theorem selectHost_nonempty (pool : ArgumentList) (draw : Nat) (hne : pool ≠ []) :
    ∃ host drawn, selectHost pool draw = some (host, drawn) ∧ host ∈ pool ∧
      (pool.length = 1 → drawn = [] ∧ pool = [host]) ∧
      (pool.length ≠ 1 → drawn = [.intn pool.length] ∧
        ∃ i, i < pool.length ∧ Intn draw pool.length = some i ∧ pool[i]? = some host) := by
  by_cases h1 : pool.length = 1
  · obtain ⟨a, rfl⟩ := List.length_eq_one.mp h1
    exact ⟨a, [], by simp [selectHost], by simp, by simp, by simp⟩
  · have hpos : 0 < pool.length := List.length_pos.mpr hne
    have hlt : draw % pool.length < pool.length := Nat.mod_lt _ hpos
    refine ⟨pool[draw % pool.length], [.intn pool.length], ?_, List.getElem_mem _, ?_, ?_⟩
    · simp [selectHost, h1, Intn, Nat.pos_iff_ne_zero.mp hpos, List.getElem?_eq_getElem hlt]
    · intro h; exact absurd h h1
    · intro _
      exact ⟨rfl, draw % pool.length, hlt, by simp [Intn, Nat.pos_iff_ne_zero.mp hpos],
        List.getElem?_eq_getElem hlt⟩

theorem get_of_missing (v : Values) (key : String) (h : ∀ x, (key, x) ∉ v) :
    v.Get key = "" := by
  have hnone : v.find? (fun kv => kv.1 == key) = none := by
    rw [List.find?_eq_none]
    intro kv hkv hk
    have hk1 : kv.1 = key := by simpa using hk
    exact h kv.2 (by rw [← hk1]; exact hkv)
  simp [Values.Get, hnone]

theorem parseInt_syntax_value (s : List Char) (h : (ParseInt s).2 = some .ErrSyntax) :
    (ParseInt s).1 = 0 := by
  cases s with
  | nil => rfl
  | cons c cs =>
    simp only [ParseInt] at h ⊢
    generalize ParseUint (if c = '+' ∨ c = '-' then cs else c :: cs) = r at h ⊢
    rcases r with ⟨un, e⟩
    rcases e with _ | e
    · simp only at h ⊢
      split_ifs at h ⊢ <;> simp_all
    · cases e
      · rfl
      · simp only at h ⊢
        split_ifs at h ⊢ <;> simp_all

theorem atoi_syntax_value (s : String) (h : (Atoi s).2 = some .ErrSyntax) : (Atoi s).1 = 0 :=
  parseInt_syntax_value s.toList h

theorem firstOutermost_append {H : Type} (h : H) (ds : List (H → H)) (d : H → H) :
    firstOutermost h (ds ++ [d]) = firstOutermost (d h) ds := by
  induction ds with
  | nil => rfl
  | cons e es ih => simp [firstOutermost, ih]

theorem decorateHandler_eq {H : Type} (h : H) (ds : List (H → H)) :
    decorateHandler h ds = firstOutermost h ds.reverse := by
  induction ds generalizing h with
  | nil => rfl
  | cons d ds ih => rw [decorateHandler, ih, List.reverse_cons, firstOutermost_append]

theorem foldl_set (l : ArgumentList) (vs : List String) :
    vs.foldl (fun l v => (ArgumentList.Set l v).1) l = l ++ vs := by
  induction vs generalizing l with
  | nil => simp
  | cons v vs ih =>
    rw [List.foldl_cons, ih]
    simp [ArgumentList.Set]

/-! ## The generated token -/

theorem randLoop_letters (src : Nat → Nat) (fuel : Nat) :
    ∀ (i : Int) (cache remain next : Nat) (b out : List Char),
      i < b.length →
      (∀ (j : Nat) (hj : j < b.length), i < (j : Int) → b[j] ∈ letterBytes) →
      randLoop src fuel i cache remain next b = some out →
      out.length = b.length ∧ ∀ c ∈ out, c ∈ letterBytes := by
  induction fuel with
  | zero =>
    intro i cache remain next b out _ hinv hrun
    by_cases hi : 0 ≤ i
    · simp [randLoop, hi] at hrun
    · simp only [randLoop, hi, if_false, Option.some.injEq] at hrun
      subst hrun
      refine ⟨rfl, fun c hc => ?_⟩
      obtain ⟨j, hj, rfl⟩ := List.mem_iff_getElem.mp hc
      exact hinv j hj (by omega)
  | succ fuel ih =>
    intro i cache remain next b out hlen hinv hrun
    by_cases hi : 0 ≤ i
    · simp only [randLoop, hi, if_true] at hrun
      generalize (if remain = 0 then src next % 2 ^ 63 else cache) = cache1 at hrun
      generalize (if remain = 0 then letterIdxMax else remain) = remain1 at hrun
      generalize (if remain = 0 then next + 1 else next) = next1 at hrun
      split at hrun
      · rename_i hidx
        have hres := ih _ _ _ _ _ out (by rw [List.length_set]; omega) ?_ hrun
        · rw [List.length_set] at hres
          exact hres
        · intro j hj hlt
          rw [List.length_set] at hj
          rw [List.getElem_set]
          split
          · exact List.get_mem _ _ _
          · rename_i hne
            exact hinv j hj (by omega)
      · exact ih _ _ _ _ _ out hlen hinv hrun
    · simp only [randLoop, hi, if_false, Option.some.injEq] at hrun
      subst hrun
      refine ⟨rfl, fun c hc => ?_⟩
      obtain ⟨j, hj, rfl⟩ := List.mem_iff_getElem.mp hc
      exact hinv j hj (by omega)

theorem randLoop_more_fuel (src : Nat → Nat) (fuel : Nat) :
    ∀ (i : Int) (cache remain next : Nat) (b out : List Char),
      randLoop src fuel i cache remain next b = some out →
      randLoop src (fuel + 1) i cache remain next b = some out := by
  induction fuel with
  | zero =>
    intro i cache remain next b out hrun
    by_cases hi : 0 ≤ i
    · simp [randLoop, hi] at hrun
    · simpa [randLoop, hi] using hrun
  | succ fuel ih =>
    intro i cache remain next b out hrun
    by_cases hi : 0 ≤ i
    · rw [randLoop] at hrun ⊢
      simp only [hi, if_true] at hrun ⊢
      generalize (if remain = 0 then src next % 2 ^ 63 else cache) = cache1 at hrun ⊢
      generalize (if remain = 0 then letterIdxMax else remain) = remain1 at hrun ⊢
      generalize (if remain = 0 then next + 1 else next) = next1 at hrun ⊢
      split at hrun
      · rename_i hidx
        rw [dif_pos hidx]
        exact ih _ _ _ _ _ _ hrun
      · rename_i hidx
        rw [dif_neg hidx]
        exact ih _ _ _ _ _ _ hrun
    · rw [randLoop] at hrun ⊢
      simpa [hi] using hrun

theorem utf8Size_letter : ∀ c ∈ letterBytes, c.utf8Size = 1 := by decide

theorem utf8ByteSize_letters (cs : List Char) (h : ∀ c ∈ cs, c ∈ letterBytes) :
    (String.mk cs).utf8ByteSize = cs.length := by
  induction cs with
  | nil => rfl
  | cons c cs ih =>
    have hc : c.utf8Size = 1 := utf8Size_letter c (h c (List.mem_cons_self _ _))
    have ih2 := ih (fun d hd => h d (List.mem_cons_of_mem _ hd))
    simp only [String.utf8ByteSize, String.utf8ByteSize.go, List.length_cons] at ih2 ⊢
    omega

theorem randString_letters (src : Nat → Nat) (fuel n : Nat) (s : String)
    (h : randStringBytesMaskSrc src fuel n = some s) :
    s.length = n ∧ len s = n ∧ ∀ c ∈ s.toList, c ∈ letterBytes := by
  unfold randStringBytesMaskSrc at h
  rw [Option.map_eq_some'] at h
  obtain ⟨out, hrun, rfl⟩ := h
  have hres := randLoop_letters src fuel _ _ _ _ _ out (by simp) ?_ hrun
  · rw [List.length_replicate] at hres
    refine ⟨hres.1, ?_, hres.2⟩
    rw [len, utf8ByteSize_letters out hres.2, hres.1]
  · intro j hj hlt
    rw [List.length_replicate] at hj
    omega

theorem randString_more_fuel (src : Nat → Nat) (fuel n : Nat) (s : String)
    (h : randStringBytesMaskSrc src fuel n = some s) :
    randStringBytesMaskSrc src (fuel + 1) n = some s := by
  unfold randStringBytesMaskSrc at h ⊢
  rw [Option.map_eq_some'] at h ⊢
  obtain ⟨out, hrun, rfl⟩ := h
  exact ⟨out, randLoop_more_fuel src fuel _ _ _ _ _ _ hrun, rfl⟩

theorem value_withRID (req : Request) (t : String) : (req.withRID t).Value "rid" = some t := by
  simp [Request.withRID, Request.WithValue, Request.Value]

theorem mainHandler_eq (cfg : Config) (draw : Nat) (client : String → GetResult)
    (since : String) (src : Nat → Nat) (fuel : Nat) :
    mainHandler cfg draw client since src fuel =
      addRequestID src fuel (requestLogger since (handleIt cfg draw client)) := rfl

theorem addRequestID_some (src : Nat → Nat) (fuel : Nat) (fn : HandlerFunc) (req : Request)
    (t : String) (h : chooseRID src fuel req = some t) :
    addRequestID src fuel fn req = fn (req.withRID t) := by
  simp [addRequestID, h]

theorem requestLogger_events (since : String) (fn : HandlerFunc) (req : Request) (t : String)
    (h : req.Value "rid" = some t) :
    (requestLogger since fn req).events =
        .logf ("[" ++ t ++ "] Before") :: (fn req).events ++
          (if (fn req).status = .returned then [.logf ("[" ++ t ++ "] Finished in " ++ since)]
            else []) ∧
      (requestLogger since fn req).status = (fn req).status := by
  unfold requestLogger
  simp only [h]
  cases hst : (fn req).status <;> simp

theorem requestLogger_outbound (since : String) (fn : HandlerFunc) (req : Request) :
    (requestLogger since fn req).outbound = (fn req).outbound := by
  unfold requestLogger
  cases hst : (fn req).status <;> simp [Outcome.outbound, List.filterMap_append, hst]

theorem handleIt_forward_outbound (cfg : Config) (draw : Nat) (client : String → GetResult)
    (req : Request) (host : String) (drawn : List Event)
    (h0 : 0 < (Atoi (req.query.Get "hops")).1) (h1 : (Atoi (req.query.Get "hops")).1 ≤ 1000)
    (hs : selectHost cfg.hosts draw = some (host, drawn))
    (hd : drawn = [] ∨ drawn = [.intn cfg.hosts.length]) :
    (handleIt cfg draw client req).outbound =
      [newGet (hopURL host ((Atoi (req.query.Get "hops")).1 - 1))] := by
  rw [handleIt_forward cfg draw client req host drawn h0 h1 hs]
  rcases hd with hd | hd <;> rw [hd] <;>
    cases client (hopURL host ((Atoi (req.query.Get "hops")).1 - 1)) <;>
    simp only [Outcome.outbound] <;> first | rfl | (split_ifs <;> rfl)

/-! ## Printing and parsing a hop count -/

theorem digit_toNat (d : Nat) (h : d < 10) : (Char.ofNat (48 + d)).toNat = 48 + d := by
  interval_cases d <;> rfl

theorem digitsValue_shift (cs : List Char) (m : Nat) :
    digitsValue cs m = m * 10 ^ cs.length + digitsValue cs 0 := by
  induction cs generalizing m with
  | nil => simp [digitsValue]
  | cons c cs ih =>
    rw [digitsValue, ih, digitsValue, ih (0 * 10 + (c.toNat - 48)), List.length_cons]
    ring

theorem le_digitsValue (cs : List Char) (m : Nat) : m ≤ digitsValue cs m := by
  rw [digitsValue_shift]
  have : 1 ≤ 10 ^ cs.length := Nat.one_le_pow _ _ (by decide)
  nlinarith

theorem parseUintLoop_digits (cs : List Char) (m : Nat)
    (hd : ∀ c ∈ cs, 48 ≤ c.toNat ∧ c.toNat ≤ 57) (hv : digitsValue cs m ≤ maxUint64) :
    parseUintLoop cs m = (digitsValue cs m, none) := by
  induction cs generalizing m with
  | nil => rfl
  | cons c cs ih =>
    have hc := hd c (List.mem_cons_self _ _)
    have hstep : m * 10 + (c.toNat - 48) ≤ maxUint64 :=
      le_trans (le_digitsValue cs _) hv
    have hcut : ¬ uintCutoff ≤ m := by
      have h1 : uintCutoff = 1844674407370955162 := by decide
      have h2 : maxUint64 = 18446744073709551615 := by decide
      omega
    rw [parseUintLoop, if_pos hc, if_neg hcut, if_neg (by omega)]
    exact ih _ (fun d hd2 => hd d (List.mem_cons_of_mem _ hd2)) hv

theorem fmtNatCore_digits (fuel n : Nat) (acc : List Char)
    (hacc : ∀ c ∈ acc, 48 ≤ c.toNat ∧ c.toNat ≤ 57) :
    ∀ c ∈ fmtNatCore fuel n acc, 48 ≤ c.toNat ∧ c.toNat ≤ 57 := by
  induction fuel generalizing n acc with
  | zero => exact hacc
  | succ fuel ih =>
    have hcons : ∀ c ∈ Char.ofNat (48 + n % 10) :: acc, 48 ≤ c.toNat ∧ c.toNat ≤ 57 := by
      intro c hc
      rcases List.mem_cons.mp hc with rfl | hc
      · rw [digit_toNat _ (Nat.mod_lt _ (by decide))]
        have := Nat.mod_lt n (show 0 < 10 by decide)
        omega
      · exact hacc c hc
    rw [fmtNatCore]
    split_ifs
    · exact hcons
    · exact ih _ _ hcons

theorem fmtNatCore_ne_nil (fuel n : Nat) (acc : List Char) :
    fmtNatCore (fuel + 1) n acc ≠ [] := by
  induction fuel generalizing n acc with
  | zero =>
    rw [fmtNatCore]
    split_ifs <;> simp [fmtNatCore]
  | succ fuel ih =>
    rw [fmtNatCore]
    split_ifs
    · simp
    · exact ih _ _

theorem fmtNatCore_value (fuel n : Nat) (acc : List Char) (h : n < fuel) :
    digitsValue (fmtNatCore fuel n acc) 0 = n * 10 ^ acc.length + digitsValue acc 0 := by
  induction fuel generalizing n acc with
  | zero => omega
  | succ fuel ih =>
    have hd : (Char.ofNat (48 + n % 10)).toNat - 48 = n % 10 := by
      rw [digit_toNat _ (Nat.mod_lt _ (by decide))]; omega
    have hcons : digitsValue (Char.ofNat (48 + n % 10) :: acc) 0 =
        n % 10 * 10 ^ acc.length + digitsValue acc 0 := by
      rw [digitsValue, digitsValue_shift, hd]; ring
    rw [fmtNatCore]
    split_ifs with h0
    · rw [hcons]
      have : n % 10 = n := by omega
      rw [this]
    · rw [ih _ _ (by omega), hcons, List.length_cons]
      have hn : n = 10 * (n / 10) + n % 10 := (Nat.div_add_mod n 10).symm
      generalize n / 10 = q at hn ⊢
      generalize n % 10 = r at hn ⊢
      subst hn
      ring

theorem atoi_fmtInt (n : Nat) (h : n < 2 ^ 63) : Atoi (fmtInt n) = ((n : Int), none) := by
  have hnn : ¬ ((n : Int) < 0) := by omega
  have hdig := fmtNatCore_digits (n + 1) n [] (by simp)
  have hval : digitsValue (fmtNatCore (n + 1) n []) 0 = n := by
    rw [fmtNatCore_value _ _ _ (by omega)]; simp [digitsValue]
  have hparse : parseUintLoop (fmtNatCore (n + 1) n []) 0 = (n, none) := by
    have hmax : maxUint64 = 18446744073709551615 := by decide
    rw [parseUintLoop_digits _ _ hdig (by rw [hval]; omega), hval]
  have hne := fmtNatCore_ne_nil n n []
  simp only [Atoi, fmtInt, hnn, if_false, Int.natAbs_ofNat, String.toList]
  revert hdig hparse hne
  generalize fmtNatCore (n + 1) n [] = ds
  intro hdig hparse hne
  cases ds with
  | nil => exact absurd rfl hne
  | cons c cs =>
    have hc := hdig c (List.mem_cons_self _ _)
    have hplus : c ≠ '+' := by rintro rfl; revert hc; decide
    have hminus : c ≠ '-' := by rintro rfl; revert hc; decide
    simp only [ParseInt, hplus, hminus, or_self, if_false, ParseUint, hparse]
    have hlt : n < 9223372036854775808 := by
      have h63 : (2 : Nat) ^ 63 = 9223372036854775808 := by norm_num
      omega
    simp [hlt]

/-! ## The chain of hops -/

theorem splitOn_absent (sep : Char) (l : List Char) (h : sep ∉ l) : splitOn sep l = [l] := by
  induction l with
  | nil => rfl
  | cons c cs ih =>
    have hc : c ≠ sep := fun e => h (by rw [e]; exact List.mem_cons_self _ _)
    have hcs : sep ∉ cs := fun e => h (List.mem_cons_of_mem _ e)
    simp [splitOn, hc, ih hcs]

theorem digit_not_mark (c : Char) (hc : 48 ≤ c.toNat ∧ c.toNat ≤ 57) :
    c ≠ '#' ∧ c ≠ '?' ∧ c ≠ '&' ∧ c ≠ '=' ∧ c ≠ ';' ∧ c ≠ '%' ∧ c ≠ '+' := by
  refine ⟨?_, ?_, ?_, ?_, ?_, ?_, ?_⟩ <;> (rintro rfl; revert hc; decide)

theorem unescape_plain (l : List Char) (h : ∀ c ∈ l, c ≠ '%' ∧ c ≠ '+') :
    unescape l = some l := by
  induction l with
  | nil => rfl
  | cons c cs ih =>
    have hc := h c (List.mem_cons_self _ _)
    have ih2 := ih (fun d hd => h d (List.mem_cons_of_mem _ hd))
    rcases cs with _ | ⟨a, _ | ⟨b, rest⟩⟩
    · rw [unescape]
      · rw [if_neg hc.1, ih2]; simp [hc.2]
      · intro _ _ _ he; cases he
    · rw [unescape]
      · rw [if_neg hc.1, ih2]; simp [hc.2]
      · intro _ _ _ he; cases he
    · rw [unescape, if_neg hc.1, ih2]; simp [hc.2]

theorem parsePair_hops (ds : List Char) (hdig : ∀ c ∈ ds, 48 ≤ c.toNat ∧ c.toNat ≤ 57) :
    parsePair ("hops=".toList ++ ds) = some ("hops", String.mk ds) := by
  have hp : "hops=".toList = ['h', 'o', 'p', 's', '='] := rfl
  have hsemi : ¬ (("hops=".toList ++ ds) = [] ∨ ';' ∈ "hops=".toList ++ ds) := by
    rintro (h | h)
    · rw [hp] at h; simp at h
    · rcases List.mem_append.mp h with h | h
      · revert h; decide
      · exact (digit_not_mark _ (hdig _ h)).2.2.2.2.1 rfl
  have hkey : ("hops=".toList ++ ds).takeWhile (fun c => c != '=') = ['h', 'o', 'p', 's'] := by
    rw [hp]; simp [List.takeWhile]
  have hval : (("hops=".toList ++ ds).dropWhile (fun c => c != '=')).drop 1 = ds := by
    rw [hp]; simp [List.dropWhile]
  have hk : unescape ['h', 'o', 'p', 's'] = some ['h', 'o', 'p', 's'] :=
    unescape_plain _ (by decide)
  have hv : unescape ds = some ds :=
    unescape_plain _ (fun c hc =>
      ⟨(digit_not_mark c (hdig c hc)).2.2.2.2.2.1, (digit_not_mark c (hdig c hc)).2.2.2.2.2.2⟩)
  rw [parsePair, if_neg hsemi, hkey, hval, hk, hv]

theorem requestOfURL_hopURL (host : String) (n : Nat)
    (hq : '?' ∉ host.toList) (hf : '#' ∉ host.toList) :
    requestOfURL (hopURL host n) = ⟨[("hops", fmtInt n)], [], []⟩ := by
  have hnn : ¬ ((n : Int) < 0) := by omega
  have hdig := fmtNatCore_digits (n + 1) n [] (by simp)
  have hfmt : fmtInt (n : Int) = String.mk (fmtNatCore (n + 1) n []) := by
    simp [fmtInt, hnn]
  revert hdig hfmt
  generalize fmtNatCore (n + 1) n [] = ds
  intro hdig hfmt
  have hurl : (hopURL host n).toList =
      "http://".toList ++ (host.toList ++ ('?' :: ("hops=".toList ++ ds))) := by
    simp [hopURL, hfmt, String.toList]
  have hnofrag : ∀ x ∈ (hopURL host n).toList, (x != '#') = true := by
    intro x hx
    rw [hurl] at hx
    simp only [List.mem_append, List.mem_cons] at hx
    rcases hx with hx | hx | hx | hx | hx
    · revert x; decide
    · simp only [bne_iff_ne]; rintro rfl; exact hf hx
    · rw [hx]; decide
    · revert x; decide
    · simp only [bne_iff_ne]; exact (digit_not_mark x (hdig x hx)).1
  have hpre : ∀ x ∈ "http://".toList ++ host.toList, (x != '?') = true := by
    intro x hx
    simp only [List.mem_append] at hx
    rcases hx with hx | hx
    · revert x; decide
    · simp only [bne_iff_ne]; rintro rfl; exact hq hx
  have hraw : rawQuery (hopURL host n).toList = "hops=".toList ++ ds := by
    rw [rawQuery, List.takeWhile_eq_self_iff.mpr hnofrag, hurl, ← List.append_assoc,
      List.dropWhile_append_of_pos hpre]
    rfl
  have hamp : '&' ∉ "hops=".toList ++ ds := by
    intro hx
    rcases List.mem_append.mp hx with hx | hx
    · revert hx; decide
    · exact (digit_not_mark _ (hdig _ hx)).2.2.1 rfl
  simp only [requestOfURL, hraw, parseQuery, splitOn_absent _ _ hamp, List.filterMap_cons,
    parsePair_hops ds hdig, List.filterMap_nil, hfmt]

theorem handleIt_forward_ok (cfg : Config) (draw : Nat) (client : String → GetResult)
    (req : Request) (host : String) (drawn : List Event) (body : String)
    (h0 : 0 < (Atoi (req.query.Get "hops")).1) (h1 : (Atoi (req.query.Get "hops")).1 ≤ 1000)
    (hs : selectHost cfg.hosts draw = some (host, drawn))
    (hd : drawn = [] ∨ drawn = [.intn cfg.hosts.length])
    (hb : client (hopURL host ((Atoi (req.query.Get "hops")).1 - 1)) = .ok body) :
    handleIt cfg draw client req =
        ⟨drawn ++ [.printf (hopLine host ((Atoi (req.query.Get "hops")).1 - 1)),
            .get (newGet (hopURL host ((Atoi (req.query.Get "hops")).1 - 1)))] ++
          (if cfg.workLoad > 0 then [.sleep (wrap64 (1000000 * cfg.workLoad))] else []) ++
          [.write body], .returned⟩ ∧
      (handleIt cfg draw client req).body = body := by
  have hrun := handleIt_forward cfg draw client req host drawn h0 h1 hs
  rw [hb] at hrun
  dsimp only at hrun
  rw [hrun]
  refine ⟨rfl, ?_⟩
  rcases hd with hd | hd <;> rw [hd] <;> split_ifs <;> simp [Outcome.body]

theorem handleIt_forward_sleeps (cfg : Config) (draw : Nat) (client : String → GetResult)
    (req : Request) (host : String) (drawn : List Event) (body : String)
    (h0 : 0 < (Atoi (req.query.Get "hops")).1) (h1 : (Atoi (req.query.Get "hops")).1 ≤ 1000)
    (hs : selectHost cfg.hosts draw = some (host, drawn))
    (hd : drawn = [] ∨ drawn = [.intn cfg.hosts.length])
    (hb : client (hopURL host ((Atoi (req.query.Get "hops")).1 - 1)) = .ok body) :
    ((handleIt cfg draw client req).sleeps.map Int.toNat).sum = pause cfg := by
  rw [(handleIt_forward_ok cfg draw client req host drawn body h0 h1 hs hd hb).1, pause]
  rcases hd with hd | hd <;> rw [hd] <;> split_ifs <;> simp [Outcome.sleeps]

theorem chain_done (net : Network) (hne : net.cfg.hosts ≠ [])
    (hvalid : ∀ h ∈ net.cfg.hosts, '?' ∉ h.toList ∧ '#' ∉ h.toList)
    (hreach : ∀ h ∈ net.cfg.hosts, ∀ n : Nat, net.reach (hopURL h n) = true) :
    ∀ (k fuel depth : Nat) (req : Request),
      (Atoi (req.query.Get "hops")).1 = (k : Int) → k ≤ 1000 → k ≤ fuel →
      chainTime net.delay (pause net.cfg) k depth ≤ writeTimeout →
      (serveAt net fuel depth req).result = .ok "Done" ∧
      (serveAt net fuel depth req).elapsed = chainTime net.delay (pause net.cfg) k depth ∧
      ∃ hs : List String, hs.length = k ∧ (∀ h ∈ hs, h ∈ net.cfg.hosts) ∧
        (serveAt net fuel depth req).trips =
          List.zipWith (fun h n => (newGet (hopURL h n), GetResult.ok "Done")) hs (countdown k) := by
  intro k
  induction k with
  | zero =>
    intro fuel depth req hk _ _ htime
    have hrun := handleIt_low net.cfg (net.draws depth)
      (fun url => (network net fuel (depth + 1) url).result) req (by rw [hk]; simp)
    rw [chainTime] at htime
    simp only [serveAt, answer, hrun, chainTime]
    refine ⟨?_, ?_, [], rfl, by simp, ?_⟩
    · simp [Outcome.outbound, Outcome.sleeps, htime, Outcome.body]
    · simp [Outcome.outbound, Outcome.sleeps]
    · simp [Outcome.outbound, countdown]
  | succ k ih =>
    intro fuel depth req hk hk1000 hfuel htime
    obtain ⟨f, rfl⟩ : ∃ f, fuel = f + 1 := ⟨fuel - 1, by omega⟩
    obtain ⟨host, drawn, hs, hmem, hone, hmany⟩ :=
      selectHost_nonempty net.cfg.hosts (net.draws depth) hne
    have hd : drawn = [] ∨ drawn = [.intn net.cfg.hosts.length] := by
      by_cases hl : net.cfg.hosts.length = 1
      · exact Or.inl (hone hl).1
      · exact Or.inr (hmany hl).1
    have hpred : (Atoi (req.query.Get "hops")).1 - 1 = (k : Int) := by rw [hk]; push_cast; ring
    have hreq : (Atoi ((requestOfURL (hopURL host k)).query.Get "hops")).1 = (k : Int) := by
      rw [requestOfURL_hopURL host k (hvalid host hmem).1 (hvalid host hmem).2]
      have hget : Values.Get [("hops", fmtInt (k : Int))] "hops" = fmtInt (k : Int) := by
        simp [Values.Get]
      rw [hget, atoi_fmtInt k (by
        have h63 : (2 : Nat) ^ 63 = 9223372036854775808 := by norm_num
        omega)]
    rw [chainTime] at htime
    obtain ⟨hres, hel, hosts', hlen, hin, htrips⟩ :=
      ih f (depth + 1) (requestOfURL (hopURL host k)) hreq (by omega) (by omega) (by omega)
    have hnext : network net (f + 1) (depth + 1) (hopURL host k) =
        serveAt net f (depth + 1) (requestOfURL (hopURL host k)) := by
      rw [network, if_pos (hreach host hmem k)]
      rfl
    have h0 : 0 < (Atoi (req.query.Get "hops")).1 := by rw [hk]; push_cast; omega
    have h1 : (Atoi (req.query.Get "hops")).1 ≤ 1000 := by rw [hk]; push_cast; omega
    have hb : (fun url => (network net (f + 1) (depth + 1) url).result)
        (hopURL host ((Atoi (req.query.Get "hops")).1 - 1)) = .ok "Done" := by
      rw [hpred]
      show (network net (f + 1) (depth + 1) (hopURL host k)).result = .ok "Done"
      rw [hnext, hres]
    have hok := handleIt_forward_ok net.cfg (net.draws depth)
      (fun url => (network net (f + 1) (depth + 1) url).result) req host drawn "Done"
      h0 h1 hs hd hb
    have hout := handleIt_forward_outbound net.cfg (net.draws depth)
      (fun url => (network net (f + 1) (depth + 1) url).result) req host drawn h0 h1 hs hd
    have hsl := handleIt_forward_sleeps net.cfg (net.draws depth)
      (fun url => (network net (f + 1) (depth + 1) url).result) req host drawn "Done"
      h0 h1 hs hd hb
    have hst : (handleIt net.cfg (net.draws depth)
        (fun url => (network net (f + 1) (depth + 1) url).result) req).status = .returned := by
      rw [hok.1]
    rw [hpred] at hout
    simp only [serveAt, answer, hout, hsl, hst, hok.2, newGet, List.map_cons, List.map_nil,
      List.sum_cons, List.sum_nil, List.flatMap_cons, List.flatMap_nil, List.append_nil,
      Nat.add_zero]
    have hnext2 : network net (f + 1) (depth + 1) (hopURL host k) =
        serveAt net f (depth + 1) (requestOfURL (hopURL host k)) := hnext
    rw [hnext2, hel, hres]
    refine ⟨by rw [if_pos htime], rfl, host :: hosts', by simp [hlen], ?_, ?_⟩
    · intro h hh
      rcases List.mem_cons.mp hh with rfl | hh
      · exact hmem
      · exact hin h hh
    · rw [htrips]
      simp [countdown, newGet]

theorem forwardedHops_hopURL (host : String) (n : Nat) (hn : n ≤ 1000)
    (hq : '?' ∉ host.toList) (hf : '#' ∉ host.toList) :
    forwardedHops (newGet (hopURL host n)) = (n : Int) := by
  have hget : Values.Get [("hops", fmtInt (n : Int))] "hops" = fmtInt (n : Int) := by
    simp [Values.Get]
  rw [forwardedHops, newGet, requestOfURL_hopURL host n hq hf, hget, atoi_fmtInt n (by
    have h63 : (2 : Nat) ^ 63 = 9223372036854775808 := by norm_num
    omega)]

theorem trips_hops (k : Nat) (hk : k ≤ 1000) :
    ∀ hs : List String, hs.length = k →
      (∀ h ∈ hs, '?' ∉ h.toList ∧ '#' ∉ h.toList) →
      (List.zipWith (fun h n => (newGet (hopURL h n), GetResult.ok "Done")) hs
          (countdown k)).map (fun t => forwardedHops t.1) = countdown k ∧
        (List.zipWith (fun h n => (newGet (hopURL h n), GetResult.ok "Done")) hs
          (countdown k)).length = k := by
  induction k with
  | zero =>
    intro hs hlen _
    simp [countdown]
  | succ k ih =>
    intro hs hlen hv
    cases hs with
    | nil => simp at hlen
    | cons h hs =>
      have hrest := ih (by omega) hs (by simpa using hlen)
        (fun x hx => hv x (List.mem_cons_of_mem _ hx))
      have hhead := forwardedHops_hopURL h k (by omega)
        (hv h (List.mem_cons_self _ _)).1 (hv h (List.mem_cons_self _ _)).2
      simp only [countdown, List.zipWith_cons_cons, List.map_cons, List.length_cons]
      rw [hhead, hrest.1, hrest.2]
      exact ⟨rfl, rfl⟩

/-! ## Texts that are not decimal integers -/

theorem parseUintLoop_short (cs : List Char) :
    ∀ (m j : Nat), m < 10 ^ j → j + cs.length ≤ 19 →
      (parseUintLoop cs m).2 =
        if cs.all (fun d => decide (48 ≤ d.toNat ∧ d.toNat ≤ 57)) then none
        else some .ErrSyntax := by
  induction cs with
  | nil => intro m j _ _; rfl
  | cons c cs ih =>
    intro m j hm hj
    rw [List.length_cons] at hj
    by_cases hc : 48 ≤ c.toNat ∧ c.toNat ≤ 57
    · have hpow : 10 ^ j ≤ 10 ^ 18 := Nat.pow_le_pow_right (by decide) (by omega)
      have h18 : (10 : Nat) ^ 18 = 1000000000000000000 := by norm_num
      have hcut : ¬ uintCutoff ≤ m := by
        have h1 : uintCutoff = 1844674407370955162 := by decide
        omega
      have hnext : m * 10 + (c.toNat - 48) < 10 ^ (j + 1) := by
        rw [pow_succ]; omega
      have hover : ¬ maxUint64 < m * 10 + (c.toNat - 48) := by
        have h2 : maxUint64 = 18446744073709551615 := by decide
        omega
      rw [parseUintLoop, if_pos hc, if_neg hcut, if_neg hover, ih _ (j + 1) hnext (by omega)]
      simp [hc]
    · rw [parseUintLoop, if_neg hc]
      simp [hc]

theorem length_le_len (s : String) : s.length ≤ len s := by
  rcases s with ⟨cs⟩
  induction cs with
  | nil => simp [len, String.utf8ByteSize, String.utf8ByteSize.go]
  | cons c cs ih =>
    have hpos := Char.utf8Size_pos c
    simp only [len, String.utf8ByteSize, String.utf8ByteSize.go, String.length,
      List.length_cons] at ih ⊢
    omega

theorem atoi_syntax_of_short (s : String) (hs : isDecimalInteger s = false)
    (hl : len s ≤ 19) : (Atoi s).2 = some .ErrSyntax := by
  have hlen : s.toList.length ≤ 19 := le_trans (length_le_len s) hl
  unfold Atoi
  unfold isDecimalInteger at hs
  revert hs hlen
  generalize s.toList = l
  intro hs hlen
  cases l with
  | nil => rfl
  | cons c cs =>
    simp only [ParseInt, ParseUint]
    simp only at hs
    revert hs
    have hrest : (if c = '+' ∨ c = '-' then cs else c :: cs).length ≤ 19 := by
      split_ifs
      · rw [List.length_cons] at hlen; omega
      · exact hlen
    revert hrest
    generalize (if c = '+' ∨ c = '-' then cs else c :: cs) = ds
    intro hrest hs
    by_cases hnil : ds = []
    · simp [hnil]
    · have hall : ds.all (fun d => decide (48 ≤ d.toNat ∧ d.toNat ≤ 57)) = false := by
        simpa [hnil] using hs
      have hloop := parseUintLoop_short ds 0 0 (by norm_num) (by omega)
      rw [hall] at hloop
      simp only [hnil, if_false]
      rcases hp : parseUintLoop ds 0 with ⟨un, e⟩
      rw [hp] at hloop
      simp only at hloop
      subst hloop
      rfl

/-! ## The claims -/

/-- Claim C1: a request whose parsed hop count is above 1000 gets the fixed
rejection body and nothing else happens: the only event is the write of that
literal, so no random number is drawn, no host is contacted and there is no
sleep, and the outcome does not depend on the hop count. -/
theorem c1_rejects_above_ceiling (cfg : Config) (draw : Nat) (client : String → GetResult)
    (req : Request) (h : 1000 < (Atoi (req.query.Get "hops")).1) :
    handleIt cfg draw client req =
        ⟨[.write "Hops setting too high, supporting a max of 1000."], .returned⟩ ∧
      (handleIt cfg draw client req).outbound = [] ∧
      (handleIt cfg draw client req).sleeps = [] := by
  rw [handleIt_high cfg draw client req h]
  exact ⟨rfl, rfl, rfl⟩

theorem c1_rejects_above_ceiling_witness :
    1000 < (Atoi ((⟨[("hops", "5000")], [], []⟩ : Request).query.Get "hops")).1 ∧
      handleIt ⟨hosts, 1⟩ 0 (fun _ => .ok "Done") ⟨[("hops", "5000")], [], []⟩ =
        handleIt ⟨hosts, 1⟩ 0 (fun _ => .ok "Done") ⟨[("hops", "1001")], [], []⟩ :=
  ⟨by decide,
    ((c1_rejects_above_ceiling ⟨hosts, 1⟩ 0 (fun _ => .ok "Done")
        ⟨[("hops", "5000")], [], []⟩ (by decide)).1).trans (by decide)⟩

/-- Claim C2 as stated fails: the text `99999999999999999999x` is not a
decimal integer, yet `strconv.Atoi` stops at the twentieth digit with a range
error and the largest `int`, before it reaches the `x`; the error is dropped
and the request is rejected as too high instead of being answered `Done`. -/
theorem c2_counterexample :
    isDecimalInteger "99999999999999999999x" = false ∧
      Atoi "99999999999999999999x" = (9223372036854775807, some .ErrRange) ∧
      handleIt ⟨hosts, 0⟩ 0 (fun _ => .ok "Done")
          ⟨[("hops", "99999999999999999999x")], [], []⟩ =
        ⟨[.write "Hops setting too high, supporting a max of 1000."], .returned⟩ := by
  decide

/-- Claim C2, amended: when the `hops` parameter is missing, or is not a
decimal integer and at most 19 bytes long, or more generally makes
`strconv.Atoi` report a syntax error, or parses to 0, the only event is the
write of `Done`: no host is contacted and there is no sleep, whatever the
configuration, the random draw and the network are. -/
theorem c2_terminal_done (cfg : Config) (draw : Nat) (client : String → GetResult)
    (req : Request)
    (h : (∀ v, ("hops", v) ∉ req.query) ∨
      (isDecimalInteger (req.query.Get "hops") = false ∧ len (req.query.Get "hops") ≤ 19) ∨
      (Atoi (req.query.Get "hops")).2 = some .ErrSyntax ∨
      (Atoi (req.query.Get "hops")).1 = 0) :
    handleIt cfg draw client req = ⟨[.write "Done"], .returned⟩ ∧
      (handleIt cfg draw client req).outbound = [] ∧
      (handleIt cfg draw client req).sleeps = [] := by
  have h0 : (Atoi (req.query.Get "hops")).1 = 0 := by
    rcases h with h | h | h | h
    · rw [get_of_missing _ _ h]; decide
    · exact atoi_syntax_value _ (atoi_syntax_of_short _ h.1 h.2)
    · exact atoi_syntax_value _ h
    · exact h
  rw [handleIt_low cfg draw client req (by omega)]
  exact ⟨rfl, rfl, rfl⟩

theorem c2_terminal_done_witness :
    ((∀ v, ("hops", v) ∉ (⟨[("hops", "x1")], [], []⟩ : Request).query) ∨
      (isDecimalInteger ((⟨[("hops", "x1")], [], []⟩ : Request).query.Get "hops") = false ∧
        len ((⟨[("hops", "x1")], [], []⟩ : Request).query.Get "hops") ≤ 19) ∨
      (Atoi ((⟨[("hops", "x1")], [], []⟩ : Request).query.Get "hops")).2 = some .ErrSyntax ∨
      (Atoi ((⟨[("hops", "x1")], [], []⟩ : Request).query.Get "hops")).1 = 0) ∧
      handleIt ⟨hosts, 5⟩ 0 (fun _ => .getError) ⟨[("hops", "x1")], [], []⟩ =
        ⟨[.write "Done"], .returned⟩ :=
  ⟨Or.inr (Or.inl (by decide)),
    (c2_terminal_done ⟨hosts, 5⟩ 0 (fun _ => .getError) ⟨[("hops", "x1")], [], []⟩
      (Or.inr (Or.inl (by decide)))).1⟩

/-- Claim C3: for a hop count `h` from 1 to 1000 and a non-empty pool, the
handler takes the host that `selectHost` gives, an entry of the pool (the sole
entry, without drawing a random number, when the pool has one entry; the
entry at the drawn index otherwise), and makes exactly one outbound request,
the GET of `http://<host>?hops=<h-1>`, whatever the network answers; whenever
that GET succeeds with some body, the events are: the draw if any, the
printed line, that one GET, the sleep if a work load is set, and the write of
exactly that body, and the handler returns. -/
theorem c3_forwards_once (cfg : Config) (draw : Nat) (client : String → GetResult)
    (req : Request)
    (h1 : 1 ≤ (Atoi (req.query.Get "hops")).1) (h2 : (Atoi (req.query.Get "hops")).1 ≤ 1000)
    (hne : cfg.hosts ≠ []) :
    ∃ host drawn, selectHost cfg.hosts draw = some (host, drawn) ∧ host ∈ cfg.hosts ∧
      (cfg.hosts.length = 1 → drawn = [] ∧ cfg.hosts = [host]) ∧
      (cfg.hosts.length ≠ 1 → drawn = [.intn cfg.hosts.length] ∧
        ∃ i, i < cfg.hosts.length ∧ Intn draw cfg.hosts.length = some i ∧
          cfg.hosts[i]? = some host) ∧
      (handleIt cfg draw client req).outbound =
        [⟨"http://" ++ host ++ "?hops=" ++
          fmtInt ((Atoi (req.query.Get "hops")).1 - 1), []⟩] ∧
      ∀ body, client ("http://" ++ host ++ "?hops=" ++
          fmtInt ((Atoi (req.query.Get "hops")).1 - 1)) = .ok body →
        handleIt cfg draw client req =
          ⟨drawn ++ [.printf (hopLine host ((Atoi (req.query.Get "hops")).1 - 1)),
              .get ⟨"http://" ++ host ++ "?hops=" ++
                fmtInt ((Atoi (req.query.Get "hops")).1 - 1), []⟩] ++
            (if cfg.workLoad > 0 then [.sleep (wrap64 (1000000 * cfg.workLoad))] else []) ++
            [.write body], .returned⟩ ∧
        (handleIt cfg draw client req).body = body := by
  obtain ⟨host, drawn, hs, hmem, hone, hmany⟩ := selectHost_nonempty cfg.hosts draw hne
  have hd : drawn = [] ∨ drawn = [.intn cfg.hosts.length] := by
    by_cases hl : cfg.hosts.length = 1
    · exact Or.inl (hone hl).1
    · exact Or.inr (hmany hl).1
  refine ⟨host, drawn, hs, hmem, hone, hmany,
    handleIt_forward_outbound cfg draw client req host drawn (by omega) h2 hs hd, ?_⟩
  intro body hbody
  exact handleIt_forward_ok cfg draw client req host drawn body (by omega) h2 hs hd hbody

theorem c3_forwards_once_witness :
    handleIt ⟨["A:1", "B:2"], 0⟩ 0
        (fun url => if url = "http://A:1?hops=6" then GetResult.ok "pong"
          else GetResult.getError)
        ⟨[("hops", "7")], [], []⟩ =
      ⟨[.intn 2,
        .printf "Making request to A:1, remaining hops after this request: 6\n",
        .get ⟨"http://A:1?hops=6", []⟩, .write "pong"], .returned⟩ := by
  obtain ⟨host, drawn, hs, -, -, -, -, hok⟩ :=
    c3_forwards_once ⟨["A:1", "B:2"], 0⟩ 0
      (fun url => if url = "http://A:1?hops=6" then GetResult.ok "pong"
        else GetResult.getError)
      ⟨[("hops", "7")], [], []⟩ (by decide) (by decide) (by decide)
  have hsel : selectHost ["A:1", "B:2"] 0 = some ("A:1", [.intn 2]) := by decide
  have hpair : (host, drawn) = ("A:1", [Event.intn 2]) :=
    Option.some.inj (hs.symm.trans hsel)
  obtain ⟨rfl, rfl⟩ := Prod.mk.inj hpair
  exact (hok "pong" (by decide)).1.trans (by decide)

/-- Claim C4 as stated fails: with a work load of 20 seconds and `hops=2` on
the one-host pool, the second host sleeps 20 s after its forward has returned,
which is past the 10 s write deadline of its server, so its response is never
sent; the first host sees its GET fail and panics, and the original caller
gets no `Done`. -/
theorem c4_counterexample :
    serveAt ⟨⟨["A:1"], 20000⟩, fun _ => 0, fun _ => 0, fun _ => true⟩ 5 0
        ⟨[("hops", "2")], [], []⟩ =
      ⟨.getError, [(⟨"http://A:1?hops=1", []⟩, .getError),
        (⟨"http://A:1?hops=0", []⟩, .ok "Done")], 20000000000⟩ ∧
    handleIt ⟨["A:1"], 20000⟩ 0
        (fun url => (network ⟨⟨["A:1"], 20000⟩, fun _ => 0, fun _ => 0, fun _ => true⟩ 5 1
          url).result) ⟨[("hops", "2")], [], []⟩ =
      ⟨[.printf "Making request to A:1, remaining hops after this request: 1\n",
        .get ⟨"http://A:1?hops=1", []⟩], .panicked⟩ := by
  decide

/-- Claim C4, amended: in a network whose hosts all run `handleIt` with the
same non-empty pool, where every pool entry is free of `?` and `#` and is
reached by the client, and where the delays and sleeps of the chain stay
within the write timeout of 10 s, a request with `hops=k`, `1 ≤ k ≤ 1000`,
is answered `Done` for every sequence of random draws once the chain may be
`k` hops long; while it is served there are exactly `k` round-trips, the
`i`-th one being a GET of `http://<host>?hops=<k-i>` to a host of the pool
that is answered `Done`; the hop counts the hosts parse from them are
`k-1, ..., 0`; and the time the first host takes is the one that the bound
is about. -/
theorem c4_chain_of_hops (net : Network) (k fuel : Nat) (req : Request)
    (h1 : 1 ≤ k) (h2 : k ≤ 1000) (hne : net.cfg.hosts ≠ [])
    (hvalid : ∀ h ∈ net.cfg.hosts, '?' ∉ h.toList ∧ '#' ∉ h.toList)
    (hreach : ∀ h ∈ net.cfg.hosts, ∀ n : Nat, net.reach (hopURL h n) = true)
    (htime : chainTime net.delay (pause net.cfg) k 0 ≤ writeTimeout)
    (hk : (Atoi (req.query.Get "hops")).1 = (k : Int)) (hfuel : k ≤ fuel) :
    (serveAt net fuel 0 req).result = .ok "Done" ∧
      (serveAt net fuel 0 req).trips.length = k ∧
      (serveAt net fuel 0 req).trips ≠ [] ∧
      (serveAt net fuel 0 req).trips.map (fun t => forwardedHops t.1) = countdown k ∧
      ∃ hs : List String, hs.length = k ∧ (∀ h ∈ hs, h ∈ net.cfg.hosts) ∧
        (serveAt net fuel 0 req).trips =
          List.zipWith (fun h n =>
            ((⟨"http://" ++ h ++ "?hops=" ++ fmtInt n, []⟩ : Outbound), GetResult.ok "Done"))
            hs (countdown k) ∧
        (serveAt net fuel 0 req).elapsed = chainTime net.delay (pause net.cfg) k 0 := by
  obtain ⟨hres, hel, hs, hlen, hin, htrips⟩ :=
    chain_done net hne hvalid hreach k fuel 0 req hk h2 hfuel htime
  have hh := trips_hops k h2 hs hlen (fun h hh => hvalid h (hin h hh))
  have hcount : (serveAt net fuel 0 req).trips.length = k := by
    rw [htrips]; exact hh.2
  refine ⟨hres, hcount, ?_, ?_, hs, hlen, hin, htrips, hel⟩
  · intro hnil
    rw [hnil] at hcount
    simp at hcount
    omega
  · rw [htrips]; exact hh.1

theorem c4_chain_of_hops_witness :
    (serveAt ⟨⟨["A", "B"], 3⟩, fun d => d, fun _ => 1000, fun _ => true⟩ 2 0
        ⟨[("hops", "2")], [], []⟩).result = .ok "Done" ∧
      (serveAt ⟨⟨["A", "B"], 3⟩, fun d => d, fun _ => 1000, fun _ => true⟩ 2 0
        ⟨[("hops", "2")], [], []⟩).trips.map (fun t => forwardedHops t.1) = [1, 0] :=
  have h := c4_chain_of_hops ⟨⟨["A", "B"], 3⟩, fun d => d, fun _ => 1000, fun _ => true⟩ 2 2
    ⟨[("hops", "2")], [], []⟩
    (by decide) (by decide) (by decide) (by decide) (fun _ _ _ => rfl) (by decide) (by decide)
    (by decide)
  ⟨h.1, h.2.2.2.1⟩

/-- Claim C5: the token that `addRequestID` stores in the context of the
request it hands on is the inbound `Request-ID` header when that is not empty
and at most 8 bytes long; otherwise it is the output of
`randStringBytesMaskSrc(8)`, which, whenever the generation loop finishes (and
then further turns of the loop change nothing), has exactly 8 characters
(and bytes), each one of the 52 letters of `letterBytes`. -/
theorem c5_request_token (src : Nat → Nat) (fuel : Nat) (fn : HandlerFunc) (req : Request) :
    (req.header.Get "Request-ID" ≠ "" ∧ len (req.header.Get "Request-ID") ≤ 8 →
      addRequestID src fuel fn req = fn (req.withRID (req.header.Get "Request-ID")) ∧
      (req.withRID (req.header.Get "Request-ID")).Value "rid" =
        some (req.header.Get "Request-ID")) ∧
    (req.header.Get "Request-ID" = "" ∨ 8 < len (req.header.Get "Request-ID") →
      ∀ t, randStringBytesMaskSrc src fuel 8 = some t →
        addRequestID src fuel fn req = fn (req.withRID t) ∧
        (req.withRID t).Value "rid" = some t ∧
        randStringBytesMaskSrc src (fuel + 1) 8 = some t ∧
        t.length = 8 ∧ len t = 8 ∧ ∀ c ∈ t.toList, c ∈ letterBytes) ∧
    letterBytes.length = 52 := by
  refine ⟨?_, ?_, by decide⟩
  · intro h
    have hc : chooseRID src fuel req = some (req.header.Get "Request-ID") := by
      have h2 : ¬ (req.header.Get "Request-ID" = "" ∨ len (req.header.Get "Request-ID") > 8) := by
        intro hor
        rcases hor with hor | hor
        · exact h.1 hor
        · omega
      simp only [chooseRID, h2, if_false]
    exact ⟨addRequestID_some src fuel fn req _ hc, value_withRID req _⟩
  · intro h t ht
    have hc : chooseRID src fuel req = some t := by
      have h2 : req.header.Get "Request-ID" = "" ∨ len (req.header.Get "Request-ID") > 8 := h
      simp only [chooseRID, h2, if_true, ht]
    have hl := randString_letters src fuel 8 t ht
    exact ⟨addRequestID_some src fuel fn req t hc, value_withRID req t,
      randString_more_fuel src fuel 8 t ht, hl.1, hl.2.1, hl.2.2⟩

theorem c5_request_token_witness :
    addRequestID (fun k => 1000 * k + 12345678) 20 (fun r => ⟨[.logf (r.header.Get "Request-ID")], .returned⟩)
        ⟨[], [("Request-ID", "abcdefghi")], []⟩ =
      (fun r => ⟨[.logf (r.header.Get "Request-ID")], .returned⟩)
        ((⟨[], [("Request-ID", "abcdefghi")], []⟩ : Request).withRID "aaaaVgfo") ∧
    ((⟨[], [("Request-ID", "abcdefghi")], []⟩ : Request).withRID "aaaaVgfo").Value "rid" =
      some "aaaaVgfo" ∧
    randStringBytesMaskSrc (fun k => 1000 * k + 12345678) (20 + 1) 8 = some "aaaaVgfo" ∧
    "aaaaVgfo".length = 8 ∧ len "aaaaVgfo" = 8 ∧ ∀ c ∈ "aaaaVgfo".toList, c ∈ letterBytes :=
  (c5_request_token (fun k => 1000 * k + 12345678) 20
      (fun r => ⟨[.logf (r.header.Get "Request-ID")], .returned⟩)
      ⟨[], [("Request-ID", "abcdefghi")], []⟩).2.1
    (Or.inr (by decide)) "aaaaVgfo" (by decide)

/-- Claim C6 as stated fails: a request with `hops=1` that brings the token
`abc` in its `Request-ID` header is forwarded by one GET whose header is
empty, so the value of `Request-ID` on the outbound request is the empty
string, not `abc`. -/
theorem c6_counterexample :
    (mainHandler ⟨hosts, 0⟩ 0 (fun _ => .ok "Done") "1ms" (fun _ => 0) 8
        ⟨[("hops", "1")], [("Request-ID", "abc")], []⟩).outbound =
      [⟨"http://localhost:8080?hops=0", []⟩] ∧
    (mainHandler ⟨hosts, 0⟩ 0 (fun _ => .ok "Done") "1ms" (fun _ => 0) 8
        ⟨[("hops", "1")], [("Request-ID", "abc")], []⟩).outbound.map
        (fun r => r.header.Get "Request-ID") = [""] := by
  decide

/-- Claim C6, amended: on the forwarding path of the assembled pipeline the
token `t` chosen for the request is put in the context and in the
`Request-ID` header of the inbound request that the hop engine receives; the
one outbound request is the GET that `httpClient.Get` builds from the URL
alone, with an empty header, so it has no `Request-ID` value. -/
theorem c6_token_stays_inbound (cfg : Config) (draw : Nat) (client : String → GetResult)
    (since : String) (src : Nat → Nat) (fuel : Nat) (req : Request) (t : String)
    (h1 : 1 ≤ (Atoi (req.query.Get "hops")).1) (h2 : (Atoi (req.query.Get "hops")).1 ≤ 1000)
    (hne : cfg.hosts ≠ []) (ht : chooseRID src fuel req = some t) :
    mainHandler cfg draw client since src fuel req =
        requestLogger since (handleIt cfg draw client) (req.withRID t) ∧
      (req.withRID t).Value "rid" = some t ∧
      ("Request-ID", t) ∈ (req.withRID t).header ∧
      (∃ host ∈ cfg.hosts,
        (mainHandler cfg draw client since src fuel req).outbound =
          [⟨"http://" ++ host ++ "?hops=" ++ fmtInt ((Atoi (req.query.Get "hops")).1 - 1), []⟩]) ∧
      ∀ r ∈ (mainHandler cfg draw client since src fuel req).outbound,
        r.header.Get "Request-ID" = "" := by
  have hmain : mainHandler cfg draw client since src fuel req =
      requestLogger since (handleIt cfg draw client) (req.withRID t) := by
    rw [mainHandler_eq, addRequestID_some src fuel _ req t ht]
  obtain ⟨host, drawn, hs, hmem, hone, hmany⟩ := selectHost_nonempty cfg.hosts draw hne
  have hd : drawn = [] ∨ drawn = [.intn cfg.hosts.length] := by
    by_cases hl : cfg.hosts.length = 1
    · exact Or.inl (hone hl).1
    · exact Or.inr (hmany hl).1
  have hout : (mainHandler cfg draw client since src fuel req).outbound =
      [newGet (hopURL host ((Atoi (req.query.Get "hops")).1 - 1))] := by
    rw [hmain, requestLogger_outbound]
    exact handleIt_forward_outbound cfg draw client (req.withRID t) host drawn
      (by show 0 < (Atoi (req.query.Get "hops")).1; omega) h2 hs hd
  refine ⟨hmain, value_withRID req t, by simp [Request.withRID, Request.WithValue, Values.Add],
    ⟨host, hmem, hout⟩, ?_⟩
  intro r hr
  rw [hout] at hr
  rw [List.mem_singleton.mp hr]
  rfl

theorem c6_token_stays_inbound_witness :
    mainHandler ⟨["a:1", "b:2"], 0⟩ 1 (fun _ => .ok "Done") "2ms" (fun _ => 0) 8
        ⟨[("hops", "3")], [("Request-ID", "tok")], []⟩ =
      requestLogger "2ms" (handleIt ⟨["a:1", "b:2"], 0⟩ 1 (fun _ => .ok "Done"))
        ((⟨[("hops", "3")], [("Request-ID", "tok")], []⟩ : Request).withRID "tok") ∧
    ∀ r ∈ (mainHandler ⟨["a:1", "b:2"], 0⟩ 1 (fun _ => .ok "Done") "2ms" (fun _ => 0) 8
        ⟨[("hops", "3")], [("Request-ID", "tok")], []⟩).outbound,
      r.header.Get "Request-ID" = "" :=
  have h := c6_token_stays_inbound ⟨["a:1", "b:2"], 0⟩ 1 (fun _ => .ok "Done") "2ms"
    (fun _ => 0) 8 ⟨[("hops", "3")], [("Request-ID", "tok")], []⟩ "tok"
    (by decide) (by decide) (by decide) (by decide)
  ⟨h.1, h.2.2.2.2⟩

/-- Claim C7 as stated fails: with the two decorators of `main`, the handler
built by `decorateHandler` runs `addRequestID` (the second of the list) first
and logs the generated token, whereas the nesting with the first decorator
outermost would log the placeholder `none`. -/
theorem c7_counterexample :
    decorateHandler (handleIt ⟨hosts, 0⟩ 0 (fun _ => .ok "Done"))
        [requestLogger "1ms", addRequestID (fun _ => 0) 8] ⟨[], [], []⟩ =
      ⟨[.logf "[aaaaaaaa] Before", .write "Done", .logf "[aaaaaaaa] Finished in 1ms"],
        .returned⟩ ∧
    firstOutermost (handleIt ⟨hosts, 0⟩ 0 (fun _ => .ok "Done"))
        [requestLogger "1ms", addRequestID (fun _ => 0) 8] ⟨[], [], []⟩ =
      ⟨[.logf "[none] Before", .write "Done", .logf "[none] Finished in 1ms"], .returned⟩ := by
  decide

/-- Claim C7, amended: `decorateHandler` makes the last decorator of the list
the outermost wrapper: the result is the nesting, first outermost, of the
reversed list, that is `dn (... (d2 (d1 h)))`; adding a decorator at the end of
the list wraps the previous result in it; the empty list gives `h` unchanged. -/
theorem c7_last_is_outermost {H : Type} (h : H) (ds : List (H → H)) (d : H → H) :
    decorateHandler h ds = firstOutermost h ds.reverse ∧
      decorateHandler h (ds ++ [d]) = d (decorateHandler h ds) ∧
      decorateHandler h [] = h := by
  refine ⟨decorateHandler_eq h ds, ?_, rfl⟩
  rw [decorateHandler_eq, decorateHandler_eq, List.reverse_append]
  rfl

/-- Claim C8, the code at the failing input: with a work load of 1 ms
(`-work-load 1`) a request with `hops=1` sleeps one millisecond after its
forward has returned, and a request with `hops=0`, the terminal hop, does not
sleep. -/
theorem c8_sleep_on_forward_only :
    (handleIt ⟨hosts, 1⟩ 0 (fun _ => .ok "Done") ⟨[("hops", "1")], [], []⟩).sleeps = [1000000] ∧
      (handleIt ⟨hosts, 1⟩ 0 (fun _ => .ok "Done") ⟨[("hops", "0")], [], []⟩).sleeps = [] := by
  decide

/-- Claim C9 as stated fails: when the forward fails the hop engine panics,
and the pipeline logs `[abc] Before` and makes the request but never logs a
`Finished` line. -/
theorem c9_counterexample :
    mainHandler ⟨hosts, 0⟩ 0 (fun _ => .getError) "1ms" (fun _ => 0) 8
        ⟨[("hops", "1")], [("Request-ID", "abc")], []⟩ =
      ⟨[.logf "[abc] Before", .intn 2,
        .printf "Making request to localhost:8080, remaining hops after this request: 0\n",
        .get ⟨"http://localhost:8080?hops=0", []⟩], .panicked⟩ := by
  decide

/-- Claim C9, amended: the handler assembled in `main` is `addRequestID`
around `requestLogger` around `handleIt`.  For a request for which the token
`t` is chosen, the logger finds `t` in the context (so the placeholder is not
used), and the events are: the log line `[t] Before`, then the events of one
run of the hop engine on the request that carries `t`, then, when the hop
engine has returned, the log line `[t] Finished in <elapsed>`; when the hop
engine panics or never returns there is no line after its events. -/
theorem c9_pipeline_order (cfg : Config) (draw : Nat) (client : String → GetResult)
    (since : String) (src : Nat → Nat) (fuel : Nat) (req : Request) (t : String)
    (ht : chooseRID src fuel req = some t) :
    mainHandler cfg draw client since src fuel =
        addRequestID src fuel (requestLogger since (handleIt cfg draw client)) ∧
      (req.withRID t).Value "rid" = some t ∧
      (mainHandler cfg draw client since src fuel req).events =
        .logf ("[" ++ t ++ "] Before") :: (handleIt cfg draw client (req.withRID t)).events ++
          (if (handleIt cfg draw client (req.withRID t)).status = .returned
            then [.logf ("[" ++ t ++ "] Finished in " ++ since)] else []) ∧
      (mainHandler cfg draw client since src fuel req).status =
        (handleIt cfg draw client (req.withRID t)).status := by
  have hmain : mainHandler cfg draw client since src fuel req =
      requestLogger since (handleIt cfg draw client) (req.withRID t) := by
    rw [mainHandler_eq, addRequestID_some src fuel _ req t ht]
  have hlog := requestLogger_events since (handleIt cfg draw client) (req.withRID t) t
    (value_withRID req t)
  rw [hmain]
  exact ⟨rfl, value_withRID req t, hlog.1, hlog.2⟩

theorem c9_pipeline_order_witness :
    (mainHandler ⟨hosts, 3⟩ 1 (fun _ => .ok "Done") "5ms" (fun k => 1000 * k + 12345678) 20
        ⟨[("hops", "2")], [], []⟩).events =
      [.logf "[aaaaVgfo] Before", .intn 2,
        .printf "Making request to localhost:8080, remaining hops after this request: 1\n",
        .get ⟨"http://localhost:8080?hops=1", []⟩, .sleep 3000000, .write "Done",
        .logf "[aaaaVgfo] Finished in 5ms"] :=
  (c9_pipeline_order ⟨hosts, 3⟩ 1 (fun _ => .ok "Done") "5ms" (fun k => 1000 * k + 12345678) 20
      ⟨[("hops", "2")], [], []⟩ "aaaaVgfo" (by decide)).2.2.1.trans (by decide)

/-- Claim C10: `Set` returns no error and appends its value after the
existing entries; after any values `vs` given on the command line the pool is
the two initial entries followed by `vs`, so it has `vs.length + 2` entries,
at least two; and host selection on it draws an index below the length of the
pool and finds a host there. -/
theorem c10_pool_append_only (l : ArgumentList) (v : String) (vs : List String) (draw : Nat) :
    ArgumentList.Set l v = (l ++ [v], none) ∧
      parseHosts vs = ["localhost:8080", "localhost:8080"] ++ vs ∧
      (parseHosts vs).length = vs.length + 2 ∧
      2 ≤ (parseHosts vs).length ∧
      ∃ i host, i < (parseHosts vs).length ∧
        Intn draw (parseHosts vs).length = some i ∧
        (parseHosts vs)[i]? = some host ∧
        selectHost (parseHosts vs) draw = some (host, [.intn (parseHosts vs).length]) := by
  have hp : parseHosts vs = ["localhost:8080", "localhost:8080"] ++ vs := foldl_set hosts vs
  have hl : (parseHosts vs).length = vs.length + 2 := by rw [hp]; simp
  refine ⟨rfl, hp, hl, by omega, ?_⟩
  have hne : parseHosts vs ≠ [] := by
    intro h; rw [h] at hl; simp at hl
  obtain ⟨host, drawn, hs, _, _, hmany⟩ := selectHost_nonempty (parseHosts vs) draw hne
  obtain ⟨hd, i, hi, hint, hget⟩ := hmany (by omega)
  exact ⟨i, host, hi, hint, hget, by rw [hs, hd]⟩

end Purp
